import Mathlib

/-!
Shallow embedding of the nvhost_ctrl control device
(src/src/core/hle/service/nvdrv/devices/nvhost_ctrl.cpp).

The device owns a fixed table of 64 event slots.  Each slot wraps an
optional host event object, an atomic status, a consecutive-failure
counter and the (syncpoint, value) fence it is armed against.  External
collaborators (the syncpoint manager, the GPU interrupt bridge, the
host event primitive) are modelled as pure oracles and as a trace of
emitted external calls.
-/

namespace NvhostCtrl

/-- Result codes returned by the device handlers (NvResult). -/
inductive NvResult where
  | Success
  | BadParameter
  | Busy
  | Timeout
  | NotImplemented
  | ConfigVarNotFound
deriving DecidableEq, Repr

/-- Per-slot status values (EventState). -/
inductive EventState where
  | Available
  | Waiting
  | Cancelling
  | Cancelled
  | Signalling
  | Signalled
deriving DecidableEq, Repr

/-- Observable state of a host event object (Kernel::KEvent): whether its
readable side is currently signaled.  Created unsignaled. -/
structure KEvent where
  signaled : Bool
deriving DecidableEq, Repr

/-- One entry of the event slot table (struct NvEvent).  `kevent` is an
owning pointer in the source; `none` models the null pointer. -/
structure NvEvent where
  status : EventState
  fails : Nat
  registered : Bool
  assigned_syncpt : Nat
  assigned_value : Nat
  kevent : Option KEvent
deriving DecidableEq, Repr

instance : Inhabited NvEvent :=
  ⟨{ status := .Available, fails := 0, registered := false,
     assigned_syncpt := 0, assigned_value := 0, kevent := none }⟩

/-- Modelled from the spec: `IsBeingUsed` (declared in the device header,
which is not under src/) — a slot is busy iff its status is Waiting,
Cancelling or Signalling (§3 invariant). -/
def NvEvent.IsBeingUsed (e : NvEvent) : Bool :=
  e.status = EventState.Waiting ∨ e.status = EventState.Cancelling ∨
    e.status = EventState.Signalling

/-- Modelled from the spec: capacity of the event slot table
(MaxNvEvents, declared outside src/); the unregister-batch mask has up
to 64 ids (§6), so the table holds 64 slots. -/
def MaxNvEvents : Nat := 64

/-- Modelled from the spec: fixed maximum syncpoint id (MaxSyncPoints,
declared outside src/); the exact constant does not matter to the
handlers, only the range check against it. -/
def MaxSyncPoints : Nat := 192

/-- External calls emitted to the collaborators (syncpoint manager, GPU
interrupt bridge, process stalling). -/
inductive Ext where
  | refresh (id : Nat)
  | stall
  | unstall
  | waitFence (id value : Nat)
  | registerInterrupt (id value : Nat)
  | cancelInterrupt (id value : Nat)
deriving DecidableEq, Repr

/-- The syncpoint manager viewed as a pure oracle.  `RefreshSyncpoint`
both returns a new value and changes what `IsSyncpointExpired` answers
afterwards, so the pre- and post-refresh queries are separate fields. -/
structure Oracle where
  getMin : Nat → Nat
  isExpired : Nat → Nat → Bool
  refreshedValue : Nat → Nat
  isExpiredAfterRefresh : Nat → Nat → Bool

/-- Device state: the slot table (a list of length MaxNvEvents) and the
registered-slot bitmask (events_mask, a u64). -/
structure State where
  events : List NvEvent
  events_mask : Nat
deriving DecidableEq, Repr

/-- Fresh device state: 64 default slots, empty mask. -/
def initState : State :=
  { events := List.replicate MaxNvEvents default, events_mask := 0 }

/-- CreateNvEvent: allocate a host event object for the slot, mark it
registered, reset its failure counter and set its mask bit.  The
source's ASSERT calls are logging-only consistency checks and do not
change state. -/
def CreateNvEvent (s : State) (event_id : Nat) : State :=
  let event := s.events.getD event_id default
  { s with
    events := s.events.set event_id
      { event with
        kevent := some { signaled := false },
        status := .Available,
        registered := true,
        fails := 0,
        assigned_syncpt := 0 },
    events_mask := s.events_mask ||| (2 ^ event_id) }

/-- FreeNvEvent: release the host event object, unregister the slot and
clear its mask bit (`events_mask &= ~(1ULL << event_id)`, embedded as
Nat.ldiff with the bit). -/
def FreeNvEvent (s : State) (event_id : Nat) : State :=
  let event := s.events.getD event_id default
  { s with
    events := s.events.set event_id
      { event with
        kevent := none,
        status := .Available,
        registered := false },
    events_mask := Nat.ldiff s.events_mask (2 ^ event_id) }

/-- FreeEvent: bounds-checked, idempotent free of one slot; Busy if the
slot is armed. -/
def FreeEvent (s : State) (slot : Nat) : State × NvResult :=
  if slot ≥ MaxNvEvents then (s, .BadParameter)
  else
    let event := s.events.getD slot default
    if ¬ event.registered then (s, .Success)
    else if event.IsBeingUsed then (s, .Busy)
    else (FreeNvEvent s slot, .Success)

/-- IocCtrlEventRegister: range check, force-free an already registered
slot (propagating its failure), then create the slot afresh. -/
def IocCtrlEventRegister (s : State) (event_id : Nat) : State × NvResult :=
  if event_id ≥ MaxNvEvents then (s, .BadParameter)
  else
    if (s.events.getD event_id default).registered then
      match FreeEvent s event_id with
      | (s', .Success) => (CreateNvEvent s' event_id, .Success)
      | (s', r) => (s', r)
    else (CreateNvEvent s event_id, .Success)

/-- IocCtrlClearEventWait for a decoded slot id (params.event_id.slot,
the low 16 bits of the packed field).  Returns `none` when the final
`event.kevent->GetWritableEvent().Clear()` dereferences a null event
object pointer. -/
def IocCtrlClearEventWait (s : State) (slot : Nat) :
    Option (State × List Ext × NvResult) :=
  if slot ≥ MaxNvEvents then some (s, [], .BadParameter)
  else
    let event := s.events.getD slot default
    -- status.exchange(Cancelling): `prior` is the value read
    let prior := event.status
    let tr : List Ext :=
      if prior = EventState.Waiting then
        [.cancelInterrupt event.assigned_syncpt event.assigned_value,
         .refresh event.assigned_syncpt]
      else []
    match event.kevent with
    | none => none
    | some k =>
        some ({ s with
                events := s.events.set slot
                  { event with
                    fails := (event.fails + 1) % 2 ^ 32,
                    status := .Cancelled,
                    kevent := some { k with signaled := false } } },
              tr, .Success)

/-- Count of trailing zero bits (std::countr_zero) of a nonzero natural
number; returns 0 on 0. -/
def ctz (n : Nat) : Nat :=
  if n = 0 then 0
  else if n % 2 = 1 then 0
  else ctz (n / 2) + 1
termination_by n
decreasing_by
  exact Nat.div_lt_self (Nat.pos_of_ne_zero (by assumption)) (by omega)

/-- The loop of IocCtrlEventUnregisterBatch: repeatedly take the lowest
set bit of the mask, clear it (for a set bit, `mask &= ~(1ULL << id)` is
subtraction of `2 ^ id`), free that slot, and abort on the first
non-Success result. -/
def unregisterBatchLoop (s : State) (event_mask : Nat) : State × NvResult :=
  if h : event_mask = 0 then (s, .Success)
  else
    let event_id := ctz event_mask
    let event_mask' := event_mask - 2 ^ event_id
    match FreeEvent s event_id with
    | (s', .Success) => unregisterBatchLoop s' event_mask'
    | (s', r) => (s', r)
termination_by event_mask
decreasing_by
  exact Nat.sub_lt (Nat.pos_of_ne_zero h) (Nat.pos_pow_of_pos _ (by omega))

/-- IocCtrlEventUnregisterBatch on the decoded u64 mask
(params.user_events). -/
def IocCtrlEventUnregisterBatch (s : State) (user_events : Nat) :
    State × NvResult :=
  unregisterBatchLoop s user_events

/-- The set-bit indices of a mask, lowest first, extracted the way the
batch loop walks them. -/
def setBitsAsc (mask : Nat) : List Nat :=
  if mask = 0 then []
  else ctz mask :: setBitsAsc (mask - 2 ^ ctz mask)
termination_by mask
decreasing_by
  exact Nat.sub_lt (Nat.pos_of_ne_zero (by assumption))
    (Nat.pos_pow_of_pos _ (by omega))

/-- Modelled from the spec: unregister-batch "frees every set bit's slot
in ascending bit order; aborts and returns the first non-Success result
encountered, leaving later bits unprocessed" (§4.3), as a fold over an
explicit list of slot ids. -/
def unregisterBatchSpec (s : State) : List Nat → State × NvResult
  | [] => (s, .Success)
  | i :: rest =>
      match FreeEvent s i with
      | (s', .Success) => unregisterBatchSpec s' rest
      | (s', r) => (s', r)

/-- The body of SignalNvEvent's loop for one visited slot: skip it when
its armed fence does not match, otherwise exchange the status to
Signalling, signal the host event object iff the exchange read Waiting
(`none` models the null dereference if the object is missing), and
store Signalled. -/
def visitSlot (syncpoint_id value : Nat) (e : NvEvent) : Option NvEvent :=
  if e.assigned_syncpt ≠ syncpoint_id ∨ e.assigned_value ≠ value then some e
  else
    -- status.exchange(Signalling): `prior` is the value read
    let prior := e.status
    if prior = EventState.Waiting then
      match e.kevent with
      | none => none
      | some k =>
          some { e with
                 status := .Signalled,
                 kevent := some { k with signaled := true } }
    else some { e with status := .Signalled }

/-- The loop of SignalNvEvent over a snapshot of events_mask, walking set
bits lowest-first exactly like the batch loop. -/
def signalLoop (syncpoint_id value : Nat) (s : State) (signal_mask : Nat) :
    Option State :=
  if h : signal_mask = 0 then some s
  else
    let event_id := ctz signal_mask
    let signal_mask' := signal_mask - 2 ^ event_id
    match visitSlot syncpoint_id value (s.events.getD event_id default) with
    | none => none
    | some e' =>
        signalLoop syncpoint_id value
          { s with events := s.events.set event_id e' } signal_mask'
termination_by signal_mask
decreasing_by
  exact Nat.sub_lt (Nat.pos_of_ne_zero h) (Nat.pos_pow_of_pos _ (by omega))

/-- SignalNvEvent: deliver (syncpoint_id, value) to every registered slot
whose armed fence matches. -/
def SignalNvEvent (s : State) (syncpoint_id value : Nat) : Option State :=
  signalLoop syncpoint_id value s s.events_mask

/-- The scan loop of FindFreeNvEvent over the tail of the slot table
starting at index `i`, carrying the source's two accumulators: `slot`
(last registered-not-busy index seen, MaxNvEvents if none) and
`free_slot` (first unregistered index seen, MaxNvEvents if none).
`Sum.inl i` is the early return on a registered, not-busy slot already
assigned to the requested syncpoint. -/
def findLoop (syncpoint_id : Nat) :
    List NvEvent → Nat → Nat → Nat → Nat ⊕ (Nat × Nat)
  | [], _, slot, free_slot => Sum.inr (slot, free_slot)
  | e :: rest, i, slot, free_slot =>
      if e.registered then
        if ¬ e.IsBeingUsed then
          if e.assigned_syncpt = syncpoint_id then Sum.inl i
          else findLoop syncpoint_id rest (i + 1) i free_slot
        else findLoop syncpoint_id rest (i + 1) slot free_slot
      else if free_slot = MaxNvEvents then
        findLoop syncpoint_id rest (i + 1) slot i
      else findLoop syncpoint_id rest (i + 1) slot free_slot

/-- FindFreeNvEvent: scan the table once; reuse a matching registered
not-busy slot, else create on the first unregistered slot, else reuse
any registered not-busy slot, else fall back to slot 0 (after a logged
critical condition). -/
def FindFreeNvEvent (s : State) (syncpoint_id : Nat) : State × Nat :=
  match findLoop syncpoint_id s.events 0 MaxNvEvents MaxNvEvents with
  | Sum.inl i => (s, i)
  | Sum.inr (slot, free_slot) =>
      if free_slot < MaxNvEvents then (CreateNvEvent s free_slot, free_slot)
      else if slot < MaxNvEvents then (s, slot)
      else (s, 0)

/-- Decoded IocCtrlEventWaitParams: the fence (syncpoint id and target
value), the packed value field's raw u32, and the i32 timeout. -/
structure WaitParams where
  fence_id : Nat
  fence_value : Nat
  value_raw : Nat
  timeout : Int
deriving DecidableEq, Repr

/-- Modelled from the spec: packed output value for a resuming wait —
the syncpoint id alongside the slot (§4.2 step 8, §6); the exact bit
positions (id in bits 4..31) come from the device header, which is not
under src/. -/
def encodeResume (fence_id : Nat) : Nat :=
  (fence_id % 2 ^ 28) * 2 ^ 4

/-- Modelled from the spec: packed output value for an allocating wait —
the syncpoint id and an allocation flag alongside the slot (§4.2 step 8,
§6); the exact bit positions (id in bits 16..27, flag in bit 28) come
from the device header, which is not under src/. -/
def encodeAlloc (fence_id : Nat) : Nat :=
  (fence_id % 2 ^ 12) * 2 ^ 16 + 2 ^ 28

/-- The SCOPE_EXIT of IocCtrlEventWait: when `must_unmark_fail` is set,
write `events[event_id].fails = 0`.  The index is the caller-supplied
raw value and is not bounds-checked in the source; an index at or past
the table length is an out-of-bounds write, modelled as `none`. -/
def scopeExitWrite (s : State) (must_unmark_fail : Bool) (event_id : Nat) :
    Option State :=
  if must_unmark_fail then
    if event_id < s.events.length then
      some { s with
             events := s.events.set event_id
               { s.events.getD event_id default with fails := 0 } }
    else none
  else some s

/-- One exit path of IocCtrlEventWait: run the scope-exit write, then
return the result code, the output params.value.raw and the trace of
external calls made on the path. -/
def exitWith (s : State) (must_unmark_fail : Bool) (event_id : Nat)
    (r : NvResult) (out : Nat) (tr : List Ext) :
    Option (State × NvResult × Nat × List Ext) :=
  (scopeExitWrite s must_unmark_fail event_id).map fun s' => (s', r, out, tr)

/-- Slot resolution of IocCtrlEventWait: an allocating call zeroes
params.value.raw and allocates via FindFreeNvEvent; a resuming call uses
the caller-supplied raw value as the slot.  Returns (state, raw, slot). -/
def resolveSlot (s : State) (p : WaitParams) (is_allocation : Bool) :
    State × Nat × Nat :=
  if is_allocation then
    match FindFreeNvEvent s p.fence_id with
    | (s', slot) => (s', 0, slot)
  else (s, p.value_raw, p.value_raw)

/-- IocCtrlEventWait.  The returned Nat is the output params.value.raw;
`none` models the undefined behavior of the SCOPE_EXIT's unchecked
`events[event_id].fails = 0` when event_id is out of bounds. -/
def IocCtrlEventWait (oracle : Oracle) (s : State) (p : WaitParams)
    (is_allocation : Bool) : Option (State × NvResult × Nat × List Ext) :=
  let event_id := p.value_raw
  let fence_id := p.fence_id
  if fence_id ≥ MaxSyncPoints then
    exitWith s (!is_allocation) event_id .BadParameter p.value_raw []
  else if p.fence_value = 0 then
    exitWith s (!is_allocation) event_id .Success (oracle.getMin fence_id) []
  else if oracle.isExpired fence_id p.fence_value then
    exitWith s (!is_allocation) event_id .Success (oracle.getMin fence_id) []
  else if oracle.isExpiredAfterRefresh fence_id p.fence_value then
    exitWith s (!is_allocation) event_id .Success
      (oracle.refreshedValue fence_id) [.refresh fence_id]
  else
    let target_value := p.fence_value
    match resolveSlot s p is_allocation with
    | (s1, raw1, slot) =>
      -- must_unmark_fail = true on every path from here on
      if slot ≥ MaxNvEvents then
        exitWith s1 true event_id .BadParameter raw1 [.refresh fence_id]
      else
        -- check_failing: events[slot].fails > 2 forces the synchronous
        -- fallback (stall, blocking fence wait, unstall)
        let failing := (s1.events.getD slot default).fails > 2
        if p.timeout = 0 then
          if failing then
            exitWith s1 true event_id .Success target_value
              [.refresh fence_id, .stall, .waitFence fence_id target_value,
               .unstall]
          else
            exitWith s1 true event_id .Timeout raw1 [.refresh fence_id]
        else
          let event := s1.events.getD slot default
          if ¬ event.registered then
            exitWith s1 true event_id .BadParameter raw1 [.refresh fence_id]
          else if event.IsBeingUsed then
            exitWith s1 true event_id .BadParameter raw1 [.refresh fence_id]
          else if failing then
            exitWith s1 true event_id .Success target_value
              [.refresh fence_id, .stall, .waitFence fence_id target_value,
               .unstall]
          else
            let s2 := { s1 with
                        events := s1.events.set slot
                          { event with
                            status := .Waiting,
                            assigned_syncpt := fence_id,
                            assigned_value := target_value } }
            let out :=
              (if is_allocation then encodeAlloc fence_id
               else encodeResume fence_id) ||| slot
            exitWith s2 true event_id .Timeout out
              [.refresh fence_id, .registerInterrupt fence_id target_value]

/-!
Interleaving model for the race between IocCtrlClearEventWait and
SignalNvEvent on one slot.  Each handler body is decomposed into its
atomic steps on the shared slot (the status exchanges and stores are the
source's atomics; the remaining accesses touch disjoint fields).  A
schedule is a list of booleans choosing which thread performs its next
step.
-/

/-- Side-effect calls whose firing the race property is about. -/
inductive RaceCall where
  | signalEvent
  | cancelInterrupt (id value : Nat)
  | refreshSyncpoint (id : Nat)
deriving DecidableEq, Repr

/-- Shared slot state plus each thread's program counter and the local
`prior` value its status exchange read. -/
structure RaceState where
  status : EventState
  fails : Nat
  signaled : Bool
  assigned_syncpt : Nat
  assigned_value : Nat
  clear_pc : Nat
  signal_pc : Nat
  prior_clear : Option EventState
  prior_signal : Option EventState
  calls : List RaceCall
deriving DecidableEq, Repr

/-- One atomic step of IocCtrlClearEventWait's body (source lines
287-294): exchange to Cancelling; conditional interrupt-cancel and
refresh; fails increment; store Cancelled; clear the event object. -/
def clearStep (st : RaceState) : RaceState :=
  match st.clear_pc with
  | 0 => { st with
           prior_clear := some st.status, status := .Cancelling,
           clear_pc := 1 }
  | 1 =>
      if st.prior_clear = some EventState.Waiting then
        { st with
          calls := st.calls ++
            [.cancelInterrupt st.assigned_syncpt st.assigned_value,
             .refreshSyncpoint st.assigned_syncpt],
          clear_pc := 2 }
      else { st with clear_pc := 2 }
  | 2 => { st with fails := (st.fails + 1) % 2 ^ 32, clear_pc := 3 }
  | 3 => { st with status := .Cancelled, clear_pc := 4 }
  | 4 => { st with signaled := false, clear_pc := 5 }
  | _ => st

/-- One atomic step of SignalNvEvent's per-slot body (source lines
394-398): exchange to Signalling; conditional event-object signal;
store Signalled. -/
def signalStep (st : RaceState) : RaceState :=
  match st.signal_pc with
  | 0 => { st with
           prior_signal := some st.status, status := .Signalling,
           signal_pc := 1 }
  | 1 =>
      if st.prior_signal = some EventState.Waiting then
        { st with
          signaled := true, calls := st.calls ++ [.signalEvent],
          signal_pc := 2 }
      else { st with signal_pc := 2 }
  | 2 => { st with status := .Signalled, signal_pc := 3 }
  | _ => st

/-- Run a schedule: `true` steps the clearing thread, `false` the
signalling thread. -/
def raceExec (st : RaceState) : List Bool → RaceState
  | [] => st
  | b :: rest => raceExec (if b then clearStep st else signalStep st) rest

/-- Fuel-driven enumeration of interleavings; the fuel is never
exhausted when it starts at the total number of steps. -/
def mergesGo : Nat → Nat → Nat → List (List Bool)
  | _, 0, b => [List.replicate b false]
  | _, a + 1, 0 => [List.replicate (a + 1) true]
  | 0, _ + 1, _ + 1 => []
  | f + 1, a + 1, b + 1 =>
      (mergesGo f a (b + 1)).map (true :: ·) ++
        (mergesGo f (a + 1) b).map (false :: ·)

/-- All interleavings of `a` steps of one thread with `b` steps of the
other. -/
def merges (a b : Nat) : List (List Bool) :=
  mergesGo (a + b) a b

/-- A slot armed and Waiting on fence (2, 10), its event object clear,
with no failures recorded yet: the common initial state of the race. -/
def raceInit : RaceState :=
  { status := .Waiting, fails := 0, signaled := false,
    assigned_syncpt := 2, assigned_value := 10,
    clear_pc := 0, signal_pc := 0,
    prior_clear := none, prior_signal := none, calls := [] }

/-- Index of the first list entry satisfying `p`, if any. -/
def firstIdx {α : Type} (p : α → Bool) : List α → Option Nat
  | [] => none
  | a :: l => if p a then some 0 else (firstIdx p l).map (· + 1)

/-- Index of the last list entry satisfying `p`, if any. -/
def lastIdx {α : Type} (p : α → Bool) : List α → Option Nat
  | [] => none
  | a :: l =>
      match lastIdx p l with
      | some k => some (k + 1)
      | none => if p a then some 0 else none

/-- A slot the scan can return immediately: registered, not busy and
already assigned to the requested syncpoint. -/
def eventMatches (syncpoint_id : Nat) (e : NvEvent) : Bool :=
  e.registered && !e.IsBeingUsed && (e.assigned_syncpt == syncpoint_id)

/-- A slot the scan records as reusable: registered and not busy. -/
def eventReusable (e : NvEvent) : Bool :=
  e.registered && !e.IsBeingUsed

/-!  Concrete fixtures used by witnesses and counterexamples. -/

/-- An oracle whose syncpoints sit at value 3 and never report a nonzero
target as expired. -/
def oracle0 : Oracle :=
  { getMin := fun _ => 3, isExpired := fun _ _ => false,
    refreshedValue := fun _ => 3, isExpiredAfterRefresh := fun _ _ => false }

/-- A registered slot with the given failure count and status, armed on
syncpoint 0 and owning an unsignaled event object. -/
def regSlot (fails : Nat) (status : EventState) : NvEvent :=
  { status := status, fails := fails, registered := true,
    assigned_syncpt := 0, assigned_value := 0,
    kevent := some { signaled := false } }

/-- Slot 1 registered and idle with two recorded failures. -/
def stateC1 : State :=
  { events := (List.replicate MaxNvEvents (default : NvEvent)).set 1
      (regSlot 2 .Available),
    events_mask := 2 }

/-- A resuming wait on slot 1 for fence (0, 5) with a nonzero timeout. -/
def paramsC1 : WaitParams :=
  { fence_id := 0, fence_value := 5, value_raw := 1, timeout := 1000 }

/-- Slot 3 registered and idle with three recorded failures (past the
fallback threshold). -/
def stateC2w : State :=
  { events := (List.replicate MaxNvEvents (default : NvEvent)).set 3
      (regSlot 3 .Available),
    events_mask := 8 }

/-- A zero-timeout resuming poll on slot 3 for fence (0, 5). -/
def paramsC2w : WaitParams :=
  { fence_id := 0, fence_value := 5, value_raw := 3, timeout := 0 }

/-- Slot 2 registered and currently Waiting (busy). -/
def stateC6w : State :=
  { events := (List.replicate MaxNvEvents (default : NvEvent)).set 2
      (regSlot 0 .Waiting),
    events_mask := 4 }

/-- A non-allocating wait whose raw value field (100) is past the table
capacity, on a fence that fails the syncpoint range check's successor
branch (target value 0). -/
def paramsC9 : WaitParams :=
  { fence_id := 0, fence_value := 0, value_raw := 100, timeout := 0 }

/-!  Generic list helpers. -/

theorem getD_set_self {α : Type} (l : List α) (i : Nat) (a d : α)
    (h : i < l.length) : (l.set i a).getD i d = a := by
  simp [List.getD_eq_getElem?_getD, List.getElem?_set_self, h]

theorem getD_set_ne {α : Type} (l : List α) (i j : Nat) (a d : α)
    (h : i ≠ j) : (l.set i a).getD j d = l.getD j d := by
  simp [List.getD_eq_getElem?_getD, List.getElem?_set_ne, h]

/-- An exit of the wait handler with the unmark flag set succeeds iff
the captured event id is inside the table. -/
theorem exitWith_true_isSome (s : State) (ev : Nat) (r : NvResult)
    (out : Nat) (tr : List Ext) :
    (exitWith s true ev r out tr).isSome ↔ ev < s.events.length := by
  unfold exitWith scopeExitWrite
  split_ifs with h1 h2 <;> simp_all

/-- C6: registering over an in-range slot that is registered and busy
returns Busy and leaves the device state (hence the slot's registration,
armed fence, event object and mask bit) unchanged. -/
theorem IocCtrlEventRegister_busy_unchanged (s : State) (event_id : Nat)
    (h1 : event_id < MaxNvEvents)
    (h2 : (s.events.getD event_id default).registered = true)
    (h3 : (s.events.getD event_id default).IsBeingUsed = true) :
    IocCtrlEventRegister s event_id = (s, NvResult.Busy) := by
  simp_all [IocCtrlEventRegister, FreeEvent, not_le.mpr h1]

/-- Witness for C6 at a concrete Waiting slot. -/
theorem IocCtrlEventRegister_busy_unchanged_witness :
    IocCtrlEventRegister stateC6w 2 = (stateC6w, NvResult.Busy) :=
  IocCtrlEventRegister_busy_unchanged stateC6w 2 (by decide) (by decide)
    (by decide)

/-- C8 (counterexample): in the interleaving that runs signal delivery's
status exchange first and the clearing thread's final event-object clear
after the signal, signal delivery wins the exchange from Waiting and
the Signal() call fires (and the interrupt cancellation does not), yet
the run ends with the event object cleared and the failure counter
incremented — the outcome signature the claim reserves for a
cancellation win, so the claimed winner/outcome correspondence ("never
both effects") fails: the signal is lost. -/
theorem raceExec_lost_wakeup_counterexample :
    ([false, true, true, true, true, false, true, false] ∈ merges 5 3) ∧
    (raceExec raceInit
      [false, true, true, true, true, false, true, false]).prior_signal =
      some EventState.Waiting ∧
    (RaceCall.signalEvent ∈ (raceExec raceInit
      [false, true, true, true, true, false, true, false]).calls) ∧
    ¬ (RaceCall.cancelInterrupt 2 10 ∈ (raceExec raceInit
      [false, true, true, true, true, false, true, false]).calls) ∧
    (raceExec raceInit
      [false, true, true, true, true, false, true, false]).signaled =
      false ∧
    (raceExec raceInit
      [false, true, true, true, true, false, true, false]).fails =
      1 := by decide

/-- C8 (amended): in every interleaving of IocCtrlClearEventWait and
SignalNvEvent on one slot that starts Waiting, exactly one of the two
intended side-effect calls fires — the host event object's Signal() is
called iff the pending interrupt cancellation is not — the failure
counter ends incremented in every interleaving (the clear increments it
unconditionally), and when cancellation wins the event object ends
clear; the final event-object state does not track the winner, since
the clear's unconditional final event-object clear may land after a
winning signal. -/
theorem raceExec_exclusive_outcome (sched : List Bool)
    (h : sched ∈ merges 5 3) :
    ((RaceCall.signalEvent ∈ (raceExec raceInit sched).calls) ↔
      ¬ (RaceCall.cancelInterrupt 2 10 ∈ (raceExec raceInit sched).calls)) ∧
    (raceExec raceInit sched).fails = 1 ∧
    (RaceCall.cancelInterrupt 2 10 ∈ (raceExec raceInit sched).calls →
      (raceExec raceInit sched).signaled = false) := by
  have hall : ∀ x ∈ merges 5 3,
      ((RaceCall.signalEvent ∈ (raceExec raceInit x).calls) ↔
        ¬ (RaceCall.cancelInterrupt 2 10 ∈ (raceExec raceInit x).calls)) ∧
      (raceExec raceInit x).fails = 1 ∧
      (RaceCall.cancelInterrupt 2 10 ∈ (raceExec raceInit x).calls →
        (raceExec raceInit x).signaled = false) := by decide
  exact hall sched h

/-- Witness for the amended C8 on the schedule that runs the clearing
thread to completion first. -/
theorem raceExec_exclusive_outcome_witness :
    ((RaceCall.signalEvent ∈
        (raceExec raceInit [true, true, true, true, true, false, false,
          false]).calls) ↔
      ¬ (RaceCall.cancelInterrupt 2 10 ∈
        (raceExec raceInit [true, true, true, true, true, false, false,
          false]).calls)) ∧
    (raceExec raceInit [true, true, true, true, true, false, false,
      false]).fails = 1 ∧
    (RaceCall.cancelInterrupt 2 10 ∈
        (raceExec raceInit [true, true, true, true, true, false, false,
          false]).calls →
      (raceExec raceInit [true, true, true, true, true, false, false,
        false]).signaled = false) :=
  raceExec_exclusive_outcome
    [true, true, true, true, true, false, false, false] (by decide)

/-- C1 (failing run): a non-allocating wait that arms the asynchronous
slow path — it stores Waiting and registers a bridge interrupt and
returns Timeout — still resets the slot's consecutive-failure counter
from 2 to 0 through the scope-exit write, because no path ever clears
must_unmark_fail. -/
theorem IocCtrlEventWait_arming_resets_fails :
    (stateC1.events.getD 1 default).fails = 2 ∧
    ((IocCtrlEventWait oracle0 stateC1 paramsC1 false).map fun r =>
        (r.2.1, r.2.2.1, r.2.2.2, (r.1.events.getD 1 default).status,
          (r.1.events.getD 1 default).fails)) =
      some (NvResult.Timeout, 1,
        [Ext.refresh 0, Ext.registerInterrupt 0 5],
        EventState.Waiting, 0) := by decide

/-- C9 (counterexample): a non-allocating wait whose raw value field is
100 writes the slot table out of bounds in the scope-exit reset on the
early target-value-0 return path. -/
theorem IocCtrlEventWait_oob_counterexample :
    MaxNvEvents ≤ paramsC9.value_raw ∧
    IocCtrlEventWait oracle0 initState paramsC9 false = none := by decide

/-- C9 (amended): a non-allocating wait stays inside the slot table iff
the caller-supplied raw value field is below the table capacity; the
scope-exit reset indexes by that field unchecked on every exit path. -/
theorem IocCtrlEventWait_nonalloc_inbounds_iff (oracle : Oracle)
    (s : State) (p : WaitParams)
    (hlen : s.events.length = MaxNvEvents) :
    (IocCtrlEventWait oracle s p false).isSome ↔
      p.value_raw < MaxNvEvents := by
  unfold IocCtrlEventWait
  simp only [resolveSlot, Bool.not_false, if_false, Bool.false_eq_true,
    ite_false]
  split_ifs <;>
    simp_all [exitWith_true_isSome, hlen, List.length_set]

/-- Witness for the amended C9 bound: a non-allocating wait with raw
value field 1 on a fresh table stays in bounds. -/
theorem IocCtrlEventWait_nonalloc_inbounds_iff_witness :
    (IocCtrlEventWait oracle0 initState paramsC1 false).isSome ↔
      paramsC1.value_raw < MaxNvEvents :=
  IocCtrlEventWait_nonalloc_inbounds_iff oracle0 initState paramsC1
    (by decide)

/-- C4 (counterexample): on the in-range slot 0 of a fresh table, which
owns no event object, clear-wait crashes on the final event-object clear
instead of returning Success. -/
theorem IocCtrlClearEventWait_null_counterexample :
    0 < MaxNvEvents ∧ (initState.events.getD 0 default).registered = false ∧
    IocCtrlClearEventWait initState 0 = none := by decide

/-- C4 (amended): clear-wait returns BadParameter past the capacity;
on an in-range slot owning an event object it cancels the interrupt and
refreshes the syncpoint exactly when the exchanged-out status was
Waiting, increments the failure counter, stores Cancelled, clears the
event object and returns Success; an in-range slot without an event
object crashes on the final clear instead. -/
theorem IocCtrlClearEventWait_spec (s : State) (slot : Nat) :
    (MaxNvEvents ≤ slot →
      IocCtrlClearEventWait s slot = some (s, [], NvResult.BadParameter)) ∧
    (slot < MaxNvEvents → ∀ k : KEvent,
      (s.events.getD slot default).kevent = some k →
      IocCtrlClearEventWait s slot =
        some ({ s with
                events := s.events.set slot
                  { s.events.getD slot default with
                    fails := ((s.events.getD slot default).fails + 1) % 2 ^ 32,
                    status := EventState.Cancelled,
                    kevent := some { k with signaled := false } } },
              (if (s.events.getD slot default).status = EventState.Waiting
               then
                [Ext.cancelInterrupt
                   (s.events.getD slot default).assigned_syncpt
                   (s.events.getD slot default).assigned_value,
                 Ext.refresh (s.events.getD slot default).assigned_syncpt]
               else []),
              NvResult.Success)) := by
  constructor
  · intro h
    unfold IocCtrlClearEventWait
    rw [if_pos h]
  · intro h k hk
    unfold IocCtrlClearEventWait
    rw [if_neg (not_le.mpr h)]
    simp only [hk]

/-- Witness for C4 on a Waiting registered slot. -/
theorem IocCtrlClearEventWait_spec_witness :
    ∃ s' tr, IocCtrlClearEventWait stateC6w 2 =
      some (s', tr, NvResult.Success) :=
  ⟨_, _, (IocCtrlClearEventWait_spec stateC6w 2).2 (by decide)
    { signaled := false } (by decide)⟩

/-- C10 (counterexample): clear-wait on in-range slot 1 of a fresh
table, whose event-object pointer is null, dereferences the null pointer
instead of being safe and returning Success. -/
theorem IocCtrlClearEventWait_unregistered_counterexample :
    1 < MaxNvEvents ∧ (initState.events.getD 1 default).kevent = none ∧
    IocCtrlClearEventWait initState 1 = none := by decide

/-- C10 (amended): for an in-range slot, clear-wait completes without a
fault precisely when the slot owns a host event object; the final
event-object clear is performed unconditionally. -/
theorem IocCtrlClearEventWait_safe_iff (s : State) (slot : Nat)
    (h : slot < MaxNvEvents) :
    (IocCtrlClearEventWait s slot).isSome ↔
      (s.events.getD slot default).kevent.isSome := by
  unfold IocCtrlClearEventWait
  rw [if_neg (not_le.mpr h)]
  cases hk : (s.events.getD slot default).kevent <;>
    simp only [hk] <;> simp

/-- Witness for C10 on a slot owning an event object. -/
theorem IocCtrlClearEventWait_safe_iff_witness :
    (IocCtrlClearEventWait stateC6w 2).isSome ↔
      (stateC6w.events.getD 2 default).kevent.isSome :=
  IocCtrlClearEventWait_safe_iff stateC6w 2 (by decide)

/-- The slot-resolution step never changes the table length. -/
theorem FindFreeNvEvent_length (s : State) (sp : Nat) :
    (FindFreeNvEvent s sp).1.events.length = s.events.length := by
  unfold FindFreeNvEvent
  cases h : findLoop sp s.events 0 MaxNvEvents MaxNvEvents with
  | inl i => rfl
  | inr r =>
      rcases r with ⟨slot, fs⟩
      simp only []
      split_ifs <;> simp [CreateNvEvent, List.length_set]

/-- Slot resolution never changes the table length. -/
theorem resolveSlot_length (s : State) (p : WaitParams) (b : Bool) :
    (resolveSlot s p b).1.events.length = s.events.length := by
  cases b
  · rfl
  · simp only [resolveSlot]
    cases h : FindFreeNvEvent s p.fence_id with
    | mk s' slot =>
        have := FindFreeNvEvent_length s p.fence_id
        rw [h] at this
        simpa using this

/-- C2: a wait with a valid syncpoint id and a not-yet-expired nonzero
target that resolves to an in-range slot whose failure counter exceeds
2 performs the synchronous fallback — stall, blocking fence wait,
unstall — and returns Success reporting the requested target value,
both on the zero-timeout poll path and on the nonzero-timeout path
after the registered/not-busy checks. -/
theorem IocCtrlEventWait_fails_fallback (oracle : Oracle) (s : State)
    (p : WaitParams) (is_allocation : Bool)
    (hlen : s.events.length = MaxNvEvents)
    (hfence : p.fence_id < MaxSyncPoints)
    (hval : p.fence_value ≠ 0)
    (hexp1 : oracle.isExpired p.fence_id p.fence_value = false)
    (hexp2 : oracle.isExpiredAfterRefresh p.fence_id p.fence_value = false)
    (hraw : p.value_raw < MaxNvEvents)
    (hslot : (resolveSlot s p is_allocation).2.2 < MaxNvEvents)
    (hfails : 2 < ((resolveSlot s p is_allocation).1.events.getD
        (resolveSlot s p is_allocation).2.2 default).fails)
    (hpath : p.timeout = 0 ∨
      (((resolveSlot s p is_allocation).1.events.getD
          (resolveSlot s p is_allocation).2.2 default).registered = true ∧
       ((resolveSlot s p is_allocation).1.events.getD
          (resolveSlot s p is_allocation).2.2 default).IsBeingUsed =
         false)) :
    ∃ s', IocCtrlEventWait oracle s p is_allocation =
      some (s', NvResult.Success, p.fence_value,
        [Ext.refresh p.fence_id, Ext.stall,
         Ext.waitFence p.fence_id p.fence_value, Ext.unstall]) := by
  have hlen1 : p.value_raw <
      (resolveSlot s p is_allocation).1.events.length := by
    rw [resolveSlot_length, hlen]; exact hraw
  unfold IocCtrlEventWait
  rw [if_neg (not_le.mpr hfence), if_neg hval,
    if_neg (by simp [hexp1]), if_neg (by simp [hexp2])]
  rcases hr : resolveSlot s p is_allocation with ⟨s1, raw1, slot⟩
  rw [hr] at hslot hfails hpath hlen1
  simp only [hr]
  rw [if_neg (not_le.mpr hslot)]
  rcases hpath with htime | ⟨hreg, hbusy⟩
  · rw [if_pos htime, if_pos hfails]
    unfold exitWith scopeExitWrite
    rw [if_pos rfl, if_pos hlen1]
    exact ⟨_, rfl⟩
  · by_cases htime : p.timeout = 0
    · rw [if_pos htime, if_pos hfails]
      unfold exitWith scopeExitWrite
      rw [if_pos rfl, if_pos hlen1]
      exact ⟨_, rfl⟩
    · rw [if_neg htime, if_neg (by simpa using hreg),
        if_neg (by simpa using hbusy), if_pos hfails]
      unfold exitWith scopeExitWrite
      rw [if_pos rfl, if_pos hlen1]
      exact ⟨_, rfl⟩

/-- Witness for C2: a zero-timeout resume on a slot with three recorded
failures returns Success with the target value and the stall/wait/
unstall trace. -/
theorem IocCtrlEventWait_fails_fallback_witness :
    ∃ s', IocCtrlEventWait oracle0 stateC2w paramsC2w false =
      some (s', NvResult.Success, paramsC2w.fence_value,
        [Ext.refresh paramsC2w.fence_id, Ext.stall,
         Ext.waitFence paramsC2w.fence_id paramsC2w.fence_value,
         Ext.unstall]) :=
  IocCtrlEventWait_fails_fallback oracle0 stateC2w paramsC2w false
    (by decide) (by decide) (by decide) (by decide) (by decide) (by decide)
    (by decide) (by decide) (Or.inl (by decide))

/-!  Bit-level facts about the trailing-zero count. -/

/-- The bit at the trailing-zero count of a nonzero number is set. -/
theorem ctz_testBit : ∀ mask : Nat, mask ≠ 0 →
    mask.testBit (ctz mask) = true := by
  intro mask
  induction mask using Nat.strong_induction_on with
  | _ mask ih =>
    intro h
    rw [ctz, if_neg h]
    by_cases hodd : mask % 2 = 1
    · rw [if_pos hodd]
      simp [Nat.testBit_zero, hodd]
    · rw [if_neg hodd]
      have h2 : mask / 2 ≠ 0 := by omega
      have := ih (mask / 2) (by omega) h2
      simpa [Nat.testBit_succ] using this

/-- Every bit below the trailing-zero count is clear. -/
theorem ctz_testBit_lt : ∀ mask : Nat, mask ≠ 0 →
    ∀ j < ctz mask, mask.testBit j = false := by
  intro mask
  induction mask using Nat.strong_induction_on with
  | _ mask ih =>
    intro h j hj
    rw [ctz, if_neg h] at hj
    by_cases hodd : mask % 2 = 1
    · rw [if_pos hodd] at hj
      omega
    · rw [if_neg hodd] at hj
      have h2 : mask / 2 ≠ 0 := by omega
      cases j with
      | zero => simp [Nat.testBit_zero]; omega
      | succ j =>
          rw [Nat.testBit_succ]
          exact ih (mask / 2) (by omega) h2 j (by omega)

/-- Clearing the lowest set bit clears exactly that bit. -/
theorem testBit_sub_pow_ctz : ∀ mask : Nat, mask ≠ 0 → ∀ j : Nat,
    (mask - 2 ^ ctz mask).testBit j =
      (decide (j ≠ ctz mask) && mask.testBit j) := by
  intro mask
  induction mask using Nat.strong_induction_on with
  | _ mask ih =>
    intro h j
    rw [ctz, if_neg h]
    by_cases hodd : mask % 2 = 1
    · rw [if_pos hodd]
      cases j with
      | zero =>
          simp [Nat.testBit_zero]
          omega
      | succ j =>
          have hdiv : (mask - 2 ^ 0) / 2 = mask / 2 := by
            simp only [pow_zero]
            omega
          rw [Nat.testBit_succ, Nat.testBit_succ, hdiv]
          simp
    · rw [if_neg hodd]
      have h2 : mask / 2 ≠ 0 := by omega
      have hsplit : mask - 2 ^ (ctz (mask / 2) + 1) =
          2 * (mask / 2 - 2 ^ ctz (mask / 2)) := by
        have hp : (2 : Nat) ^ (ctz (mask / 2) + 1) =
            2 * 2 ^ ctz (mask / 2) := by ring
        omega
      rw [hsplit]
      cases j with
      | zero =>
          simp [Nat.testBit_zero]
          omega
      | succ j =>
          rw [Nat.testBit_succ, Nat.testBit_succ,
            Nat.mul_div_cancel_left _ (by omega : (0:Nat) < 2)]
          rw [ih (mask / 2) (by omega) h2 j]
          have : (decide (j ≠ ctz (mask / 2))) =
              (decide (j + 1 ≠ ctz (mask / 2) + 1)) := by
            simp
          rw [this]

/-- Membership in the extracted ascending bit list is exactly having the
bit set. -/
theorem mem_setBitsAsc : ∀ mask : Nat, ∀ i : Nat,
    i ∈ setBitsAsc mask ↔ mask.testBit i = true := by
  intro mask
  induction mask using Nat.strong_induction_on with
  | _ mask ih =>
    intro i
    by_cases h : mask = 0
    · subst h
      rw [setBitsAsc]
      simp [Nat.zero_testBit]
    · rw [setBitsAsc, if_neg h]
      have hsub : mask - 2 ^ ctz mask < mask :=
        Nat.sub_lt (Nat.pos_of_ne_zero h) (Nat.pos_pow_of_pos _ (by omega))
      constructor
      · intro hi
        rcases List.mem_cons.mp hi with hi | hi
        · subst hi
          exact ctz_testBit mask h
        · have := (ih _ hsub i).mp hi
          rw [testBit_sub_pow_ctz mask h i] at this
          exact (Bool.and_eq_true _ _).mp this |>.2
      · intro hi
        by_cases hic : i = ctz mask
        · subst hic
          exact List.mem_cons_self _ _
        · refine List.mem_cons_of_mem _ ((ih _ hsub i).mpr ?_)
          rw [testBit_sub_pow_ctz mask h i, hi, Bool.and_true]
          simp [hic]

/-- The extracted bit list is strictly ascending. -/
theorem setBitsAsc_sorted : ∀ mask : Nat,
    (setBitsAsc mask).Pairwise (· < ·) := by
  intro mask
  induction mask using Nat.strong_induction_on with
  | _ mask ih =>
    by_cases h : mask = 0
    · subst h
      rw [setBitsAsc]
      simp
    · rw [setBitsAsc, if_neg h]
      have hsub : mask - 2 ^ ctz mask < mask :=
        Nat.sub_lt (Nat.pos_of_ne_zero h) (Nat.pos_pow_of_pos _ (by omega))
      refine List.Pairwise.cons ?_ (ih _ hsub)
      intro x hx
      have hxbit := (mem_setBitsAsc _ x).mp hx
      rw [testBit_sub_pow_ctz mask h x] at hxbit
      have hxne : x ≠ ctz mask :=
        of_decide_eq_true ((Bool.and_eq_true _ _).mp hxbit).1
      have hxset : mask.testBit x = true :=
        ((Bool.and_eq_true _ _).mp hxbit).2
      rcases Nat.lt_trichotomy x (ctz mask) with hlt | heq | hgt
      · rw [ctz_testBit_lt mask h x hlt] at hxset
        exact Bool.noConfusion hxset
      · exact absurd heq hxne
      · exact hgt

/-- The batch loop is the spec-level fold over the ascending list of set
bits. -/
theorem unregisterBatchLoop_eq_spec : ∀ mask : Nat, ∀ s : State,
    unregisterBatchLoop s mask = unregisterBatchSpec s (setBitsAsc mask) := by
  intro mask
  induction mask using Nat.strong_induction_on with
  | _ mask ih =>
    intro s
    by_cases h : mask = 0
    · subst h
      rw [unregisterBatchLoop, setBitsAsc]
      rfl
    · rw [unregisterBatchLoop, setBitsAsc, if_neg h]
      simp only [dif_neg h]
      have hsub : mask - 2 ^ ctz mask < mask :=
        Nat.sub_lt (Nat.pos_of_ne_zero h) (Nat.pos_pow_of_pos _ (by omega))
      rcases hf : FreeEvent s (ctz mask) with ⟨s', r⟩
      cases r with
      | Success =>
          rw [unregisterBatchSpec]
          rw [hf]
          exact ih _ hsub s'
      | BadParameter => rw [unregisterBatchSpec, hf]
      | Busy => rw [unregisterBatchSpec, hf]
      | Timeout => rw [unregisterBatchSpec, hf]
      | NotImplemented => rw [unregisterBatchSpec, hf]
      | ConfigVarNotFound => rw [unregisterBatchSpec, hf]

/-- C7: unregister-batch frees exactly the set bits of its mask in
ascending bit-index order, aborting at the first non-Success free and
leaving higher set bits unprocessed: it coincides with the sequential
fold over the sorted set-bit list, which enumerates precisely the mask's
set bits in increasing order. -/
theorem IocCtrlEventUnregisterBatch_spec (s : State) (user_events : Nat) :
    IocCtrlEventUnregisterBatch s user_events =
      unregisterBatchSpec s (setBitsAsc user_events) ∧
    (setBitsAsc user_events).Pairwise (· < ·) ∧
    (∀ i, i ∈ setBitsAsc user_events ↔ user_events.testBit i = true) :=
  ⟨unregisterBatchLoop_eq_spec user_events s,
   setBitsAsc_sorted user_events,
   fun i => mem_setBitsAsc user_events i⟩

/-- Bits of a number below a power of two all sit below the exponent. -/
theorem testBit_lt_of_lt_two_pow {m : Nat} (bound : Nat)
    (hm : m < 2 ^ bound) : ∀ i, m.testBit i = true → i < bound := by
  intro i h
  by_contra hc
  push_neg at hc
  have hlt : m < 2 ^ i :=
    lt_of_lt_of_le hm (Nat.pow_le_pow_right (by omega) hc)
  rw [Nat.testBit_lt_two_pow hlt] at h
  exact Bool.noConfusion h

/-- Visiting a slot that owns an event object never faults. -/
theorem visitSlot_isSome (syncpoint_id value : Nat) (e : NvEvent)
    (h : e.kevent.isSome = true) :
    (visitSlot syncpoint_id value e).isSome = true := by
  unfold visitSlot
  rcases hk : e.kevent with _ | k
  · rw [hk] at h
    exact Bool.noConfusion h
  · split_ifs <;> simp [hk] <;> split <;> rfl

/-- The signal loop applies `visitSlot` to exactly the set bits of its
mask snapshot and leaves every other slot untouched. -/
theorem signalLoop_spec (syncpoint_id value : Nat) : ∀ mask : Nat,
    ∀ s : State,
    (∀ i, mask.testBit i = true → i < s.events.length) →
    (∀ i, mask.testBit i = true →
      (s.events.getD i default).kevent.isSome = true) →
    ∃ s', signalLoop syncpoint_id value s mask = some s' ∧
      s'.events.length = s.events.length ∧
      s'.events_mask = s.events_mask ∧
      (∀ i, mask.testBit i = false →
        s'.events.getD i default = s.events.getD i default) ∧
      (∀ i, mask.testBit i = true →
        visitSlot syncpoint_id value (s.events.getD i default) =
          some (s'.events.getD i default)) := by
  intro mask
  induction mask using Nat.strong_induction_on with
  | _ mask ih =>
    intro s hlen hkev
    by_cases h : mask = 0
    · subst h
      refine ⟨s, ?_, rfl, rfl, fun i _ => rfl, fun i hi => ?_⟩
      · rw [signalLoop]
        rfl
      · rw [Nat.zero_testBit] at hi
        exact Bool.noConfusion hi
    · have hc : mask.testBit (ctz mask) = true := ctz_testBit mask h
      have hclen : ctz mask < s.events.length := hlen _ hc
      have hsub : mask - 2 ^ ctz mask < mask :=
        Nat.sub_lt (Nat.pos_of_ne_zero h) (Nat.pos_pow_of_pos _ (by omega))
      obtain ⟨e', he'⟩ := Option.isSome_iff_exists.mp
        (visitSlot_isSome syncpoint_id value _ (hkev _ hc))
      set s2 : State :=
        { s with events := s.events.set (ctz mask) e' } with hs2
      have hlen2 : s2.events.length = s.events.length := by
        simp [hs2, List.length_set]
      have hget2_ne : ∀ i, i ≠ ctz mask →
          s2.events.getD i default = s.events.getD i default := by
        intro i hi
        exact getD_set_ne _ _ _ _ _ (fun hcon => hi hcon.symm)
      have hget2_eq : s2.events.getD (ctz mask) default = e' :=
        getD_set_self _ _ _ _ hclen
      have hbit' : ∀ i, (mask - 2 ^ ctz mask).testBit i =
          (decide (i ≠ ctz mask) && mask.testBit i) :=
        testBit_sub_pow_ctz mask h
      obtain ⟨s', hs', hl', hm', huntouched, hvisited⟩ :=
        ih _ hsub s2
          (by
            intro i hi
            rw [hbit'] at hi
            have := ((Bool.and_eq_true _ _).mp hi).2
            rw [hlen2]
            exact hlen i this)
          (by
            intro i hi
            rw [hbit'] at hi
            obtain ⟨hne, hset⟩ := (Bool.and_eq_true _ _).mp hi
            rw [hget2_ne i (of_decide_eq_true hne)]
            exact hkev i hset)
      refine ⟨s', ?_, ?_, ?_, ?_, ?_⟩
      · rw [signalLoop, dif_neg h]
        simp only [he']
        exact hs'
      · rw [hl', hlen2]
      · rw [hm']
      · intro i hi
        have hine : i ≠ ctz mask := fun hcon => by
          rw [hcon] at hi
          rw [hc] at hi
          exact Bool.noConfusion hi
        have : (mask - 2 ^ ctz mask).testBit i = false := by
          rw [hbit', hi, Bool.and_false]
        rw [huntouched i this, hget2_ne i hine]
      · intro i hi
        by_cases hicase : i = ctz mask
        · rw [hicase]
          have hbitf : (mask - 2 ^ ctz mask).testBit (ctz mask) = false := by
            rw [hbit']
            simp
          rw [huntouched _ hbitf, hget2_eq]
          exact he'
        · have : (mask - 2 ^ ctz mask).testBit i = true := by
            rw [hbit', hi, Bool.and_true]
            simp [hicase]
          have hv := hvisited i this
          rw [hget2_ne i hicase] at hv
          exact hv

/-- C5: signal delivery for (syncpoint_id, value) visits exactly the
slots whose events_mask bit is set and whose armed fence matches both
components exactly; each visited matching slot ends with status
Signalled, its event object newly signaled iff the status exchange read
Waiting, everything else in it untouched; slots outside the mask or
with a non-matching fence are left entirely untouched. -/
theorem SignalNvEvent_spec (s : State) (syncpoint_id value : Nat)
    (hlen : ∀ i, s.events_mask.testBit i = true → i < s.events.length)
    (hkev : ∀ i, s.events_mask.testBit i = true →
      (s.events.getD i default).kevent.isSome = true) :
    ∃ s', SignalNvEvent s syncpoint_id value = some s' ∧
      s'.events.length = s.events.length ∧
      s'.events_mask = s.events_mask ∧
      ∀ i,
        ((s.events_mask.testBit i = false ∨
          (s.events.getD i default).assigned_syncpt ≠ syncpoint_id ∨
          (s.events.getD i default).assigned_value ≠ value) →
          s'.events.getD i default = s.events.getD i default) ∧
        (s.events_mask.testBit i = true →
          (s.events.getD i default).assigned_syncpt = syncpoint_id →
          (s.events.getD i default).assigned_value = value →
          (s'.events.getD i default).status = EventState.Signalled ∧
          (s'.events.getD i default).fails =
            (s.events.getD i default).fails ∧
          (s'.events.getD i default).registered =
            (s.events.getD i default).registered ∧
          (s'.events.getD i default).assigned_syncpt = syncpoint_id ∧
          (s'.events.getD i default).assigned_value = value ∧
          (s'.events.getD i default).kevent =
            (if (s.events.getD i default).status = EventState.Waiting then
              (s.events.getD i default).kevent.map
                (fun k => { k with signaled := true })
             else (s.events.getD i default).kevent)) := by
  obtain ⟨s', hs', hl', hm', huntouched, hvisited⟩ :=
    signalLoop_spec syncpoint_id value s.events_mask s hlen hkev
  refine ⟨s', hs', hl', hm', ?_⟩
  intro i
  constructor
  · rintro (hbit | hmis | hmis)
    · exact huntouched i hbit
    · cases hbit : s.events_mask.testBit i with
      | false => exact huntouched i hbit
      | true =>
          have hv := hvisited i hbit
          unfold visitSlot at hv
          rw [if_pos (Or.inl hmis)] at hv
          exact (Option.some.injEq _ _).mp hv |>.symm
    · cases hbit : s.events_mask.testBit i with
      | false => exact huntouched i hbit
      | true =>
          have hv := hvisited i hbit
          unfold visitSlot at hv
          rw [if_pos (Or.inr hmis)] at hv
          exact (Option.some.injEq _ _).mp hv |>.symm
  · intro hbit hsp hval
    have hv := hvisited i hbit
    unfold visitSlot at hv
    rw [if_neg (by
      push_neg
      exact ⟨hsp, hval⟩)] at hv
    by_cases hw : (s.events.getD i default).status = EventState.Waiting
    · rw [if_pos hw] at hv
      obtain ⟨k, hk⟩ := Option.isSome_iff_exists.mp (hkev i hbit)
      rw [hk] at hv
      have := (Option.some.injEq _ _).mp hv
      rw [← this]
      rw [if_pos hw, hk]
      exact ⟨rfl, rfl, rfl, hsp, hval, rfl⟩
    · rw [if_neg hw] at hv
      have := (Option.some.injEq _ _).mp hv
      rw [← this]
      rw [if_neg hw]
      exact ⟨rfl, rfl, rfl, hsp, hval, rfl⟩

/-- Witness for C5: delivering fence (0, 0) to a table whose only
registered slot 2 is Waiting on (0, 0). -/
theorem SignalNvEvent_spec_witness :
    ∃ s', SignalNvEvent stateC6w 0 0 = some s' ∧
      s'.events.length = stateC6w.events.length ∧
      s'.events_mask = stateC6w.events_mask ∧
      ∀ i,
        ((stateC6w.events_mask.testBit i = false ∨
          (stateC6w.events.getD i default).assigned_syncpt ≠ 0 ∨
          (stateC6w.events.getD i default).assigned_value ≠ 0) →
          s'.events.getD i default = stateC6w.events.getD i default) ∧
        (stateC6w.events_mask.testBit i = true →
          (stateC6w.events.getD i default).assigned_syncpt = 0 →
          (stateC6w.events.getD i default).assigned_value = 0 →
          (s'.events.getD i default).status = EventState.Signalled ∧
          (s'.events.getD i default).fails =
            (stateC6w.events.getD i default).fails ∧
          (s'.events.getD i default).registered =
            (stateC6w.events.getD i default).registered ∧
          (s'.events.getD i default).assigned_syncpt = 0 ∧
          (s'.events.getD i default).assigned_value = 0 ∧
          (s'.events.getD i default).kevent =
            (if (stateC6w.events.getD i default).status =
                EventState.Waiting then
              (stateC6w.events.getD i default).kevent.map
                (fun k => { k with signaled := true })
             else (stateC6w.events.getD i default).kevent)) :=
  SignalNvEvent_spec stateC6w 0 0
    (fun i h => by
      have hi : i < 3 := testBit_lt_of_lt_two_pow 3 (by decide) i h
      interval_cases i <;> revert h <;> decide)
    (fun i h => by
      have hi : i < 3 := testBit_lt_of_lt_two_pow 3 (by decide) i h
      interval_cases i <;> revert h <;> decide)

/-!  Characterizations of firstIdx and lastIdx. -/

theorem firstIdx_eq_none {α : Type} (p : α → Bool) (d : α) :
    ∀ l : List α, firstIdx p l = none ↔
      ∀ j < l.length, p (l.getD j d) = false := by
  intro l
  induction l with
  | nil => simp [firstIdx]
  | cons a l ih =>
    rw [firstIdx]
    by_cases ha : p a = true
    · rw [if_pos ha]
      simp only [List.length_cons]
      constructor
      · intro hcon
        exact Option.noConfusion hcon
      · intro hall
        have := hall 0 (by omega)
        simp only [List.getD_cons_zero] at this
        rw [ha] at this
        exact Bool.noConfusion this
    · rw [if_neg ha]
      simp only [Option.map_eq_none', ih, List.length_cons]
      constructor
      · intro hall j hj
        cases j with
        | zero =>
            simpa using (Bool.eq_false_iff.mpr ha)
        | succ j =>
            simp only [List.getD_cons_succ]
            exact hall j (by omega)
      · intro hall j hj
        have := hall (j + 1) (by omega)
        simpa using this

theorem firstIdx_eq_some {α : Type} (p : α → Bool) (d : α) :
    ∀ (l : List α) (j : Nat), firstIdx p l = some j →
      j < l.length ∧ p (l.getD j d) = true ∧
        ∀ j' < j, p (l.getD j' d) = false := by
  intro l
  induction l with
  | nil => intro j h; exact Option.noConfusion h
  | cons a l ih =>
    intro j h
    rw [firstIdx] at h
    by_cases ha : p a = true
    · rw [if_pos ha] at h
      have hj : j = 0 := by
        have := (Option.some.injEq _ _).mp h
        omega
      subst hj
      refine ⟨by simp, by simpa using ha, ?_⟩
      intro j' hj'
      omega
    · rw [if_neg ha] at h
      rcases Option.map_eq_some'.mp h with ⟨j0, hj0, hj0eq⟩
      obtain ⟨hlen0, hp0, hlt0⟩ := ih j0 hj0
      subst hj0eq
      refine ⟨by simp; omega, by simpa using hp0, ?_⟩
      intro j' hj'
      cases j' with
      | zero => simpa using (Bool.eq_false_iff.mpr ha)
      | succ j' =>
          simp only [List.getD_cons_succ]
          exact hlt0 j' (by omega)

theorem lastIdx_eq_some {α : Type} (p : α → Bool) (d : α) :
    ∀ (l : List α) (k : Nat), lastIdx p l = some k →
      k < l.length ∧ p (l.getD k d) = true := by
  intro l
  induction l with
  | nil => intro k h; exact Option.noConfusion h
  | cons a l ih =>
    intro k h
    rw [lastIdx] at h
    cases hl : lastIdx p l with
    | some k0 =>
        rw [hl] at h
        have hk : k = k0 + 1 := by
          have := (Option.some.injEq _ _).mp h
          omega
        subst hk
        obtain ⟨hlen0, hp0⟩ := ih k0 hl
        exact ⟨by simp; omega, by simpa using hp0⟩
    | none =>
        rw [hl] at h
        by_cases ha : p a = true
        · rw [if_pos ha] at h
          have hk : k = 0 := by
            have := (Option.some.injEq _ _).mp h
            omega
          subst hk
          exact ⟨by simp, by simpa using ha⟩
        · rw [if_neg ha] at h
          exact Option.noConfusion h

theorem lastIdx_eq_none {α : Type} (p : α → Bool) (d : α) :
    ∀ l : List α, lastIdx p l = none ↔
      ∀ j < l.length, p (l.getD j d) = false := by
  intro l
  induction l with
  | nil => simp [lastIdx]
  | cons a l ih =>
    rw [lastIdx]
    cases hl : lastIdx p l with
    | some k =>
        simp only [List.length_cons]
        constructor
        · intro hcon
          exact Option.noConfusion hcon
        · intro hall
          obtain ⟨hk, hpk⟩ := lastIdx_eq_some p d l k hl
          have := hall (k + 1) (by omega)
          simp only [List.getD_cons_succ] at this
          rw [hpk] at this
          exact Bool.noConfusion this
    | none =>
        by_cases ha : p a = true
        · rw [if_pos ha]
          simp only [List.length_cons]
          constructor
          · intro hcon
            exact Option.noConfusion hcon
          · intro hall
            have := hall 0 (by omega)
            simp only [List.getD_cons_zero] at this
            rw [ha] at this
            exact Bool.noConfusion this
        · rw [if_neg ha]
          simp only [List.length_cons]
          constructor
          · intro _ j hj
            cases j with
            | zero => simpa using (Bool.eq_false_iff.mpr ha)
            | succ j =>
                simp only [List.getD_cons_succ]
                exact (ih.mp hl) j (by omega)
          · intro _
            trivial

/-- If some slot in the scanned suffix matches the requested syncpoint,
the scan returns early at the first such slot. -/
theorem findLoop_inl (sp : Nat) :
    ∀ (evs : List NvEvent) (i slot fs j : Nat),
      firstIdx (eventMatches sp) evs = some j →
      findLoop sp evs i slot fs = Sum.inl (i + j) := by
  intro evs
  induction evs with
  | nil =>
      intro i slot fs j h
      exact Option.noConfusion h
  | cons e rest ih =>
    intro i slot fs j h
    rw [firstIdx] at h
    simp only [findLoop]
    by_cases hm : eventMatches sp e = true
    · rw [if_pos hm] at h
      have hj : j = 0 := by
        have := (Option.some.injEq _ _).mp h
        omega
      subst hj
      obtain ⟨⟨hreg, hnb⟩, hsp⟩ :
          (e.registered = true ∧ e.IsBeingUsed = false) ∧
            e.assigned_syncpt = sp := by
        simpa [eventMatches] using hm
      simp [hreg, hnb, hsp]
    · rw [if_neg hm] at h
      rcases Option.map_eq_some'.mp h with ⟨j0, hj0, hj0eq⟩
      subst hj0eq
      by_cases hreg : e.registered = true
      · by_cases hbusy : e.IsBeingUsed = true
        · simp only [hreg, hbusy, not_true, if_true, if_false,
            ih (i + 1) slot fs j0 hj0]
          simp
          ring
        · have hbusyf : e.IsBeingUsed = false := Bool.eq_false_iff.mpr hbusy
          have hsp : ¬ (e.assigned_syncpt = sp) := by
            intro hcon
            apply hm
            simp [eventMatches, hreg, hbusyf, hcon]
          simp only [hreg, hbusyf, hsp, ih (i + 1) i fs j0 hj0]
          simp [hsp]
          omega
      · have hregf : e.registered = false := Bool.eq_false_iff.mpr hreg
        by_cases hfs : fs = MaxNvEvents
        · simp [hregf, hfs, ih (i + 1) slot i j0 hj0]
          ring
        · simp [hregf, hfs, ih (i + 1) slot fs j0 hj0]
          ring

/-- If no slot in the scanned suffix matches the requested syncpoint,
the scan runs to the end, recording the last reusable slot and the
first unregistered slot (provided all scanned indices stay below the
capacity). -/
theorem findLoop_inr (sp : Nat) :
    ∀ (evs : List NvEvent) (i slot fs : Nat),
      i + evs.length ≤ MaxNvEvents →
      firstIdx (eventMatches sp) evs = none →
      findLoop sp evs i slot fs =
        Sum.inr
          ((match lastIdx eventReusable evs with
            | some k => i + k
            | none => slot),
           (if fs = MaxNvEvents then
              match firstIdx (fun e => ! e.registered) evs with
              | some k => i + k
              | none => MaxNvEvents
            else fs)) := by
  intro evs
  induction evs with
  | nil =>
      intro i slot fs hbound h
      simp only [findLoop, lastIdx, firstIdx]
      split_ifs <;> simp_all
  | cons e rest ih =>
    intro i slot fs hbound h
    rw [firstIdx] at h
    have hm : ¬ (eventMatches sp e = true) := by
      intro hcon
      rw [if_pos hcon] at h
      exact Option.noConfusion h
    rw [if_neg hm] at h
    have hrest : firstIdx (eventMatches sp) rest = none :=
      Option.map_eq_none'.mp h
    have hbound' : i + 1 + rest.length ≤ MaxNvEvents := by
      simp only [List.length_cons] at hbound
      omega
    have hilt : i < MaxNvEvents := by
      simp only [List.length_cons] at hbound
      omega
    simp only [findLoop]
    rw [lastIdx, firstIdx]
    by_cases hreg : e.registered = true
    · by_cases hbusy : e.IsBeingUsed = true
      · have hru : eventReusable e = false := by
          simp [eventReusable, hbusy]
        cases hlast : lastIdx eventReusable rest with
        | some k =>
            simp [hreg, hbusy, hru, hlast,
              ih (i + 1) slot fs hbound' hrest]
            constructor
            · ring
            · split_ifs <;>
                cases hfirst : firstIdx (fun e => ! e.registered) rest <;>
                simp [hfirst] <;> ring
        | none =>
            simp [hreg, hbusy, hru, hlast,
              ih (i + 1) slot fs hbound' hrest]
            split_ifs <;>
              cases hfirst : firstIdx (fun e => ! e.registered) rest <;>
              simp [hfirst] <;> ring
      · have hbusyf : e.IsBeingUsed = false := Bool.eq_false_iff.mpr hbusy
        have hsp : ¬ (e.assigned_syncpt = sp) := by
          intro hcon
          apply hm
          simp [eventMatches, hreg, hbusyf, hcon]
        have hru : eventReusable e = true := by
          simp [eventReusable, hreg, hbusyf]
        cases hlast : lastIdx eventReusable rest with
        | some k =>
            simp [hreg, hbusyf, hsp, hru, hlast,
              ih (i + 1) i fs hbound' hrest]
            constructor
            · ring
            · split_ifs <;>
                cases hfirst : firstIdx (fun e => ! e.registered) rest <;>
                simp [hfirst] <;> ring
        | none =>
            simp [hreg, hbusyf, hsp, hru, hlast,
              ih (i + 1) i fs hbound' hrest]
            split_ifs <;>
              cases hfirst : firstIdx (fun e => ! e.registered) rest <;>
              simp [hfirst] <;> ring
    · have hregf : e.registered = false := Bool.eq_false_iff.mpr hreg
      have hru : eventReusable e = false := by
        simp [eventReusable, hregf]
      by_cases hfs : fs = MaxNvEvents
      · have hine : ¬ (i = MaxNvEvents) := by omega
        cases hlast : lastIdx eventReusable rest with
        | some k =>
            simp [hregf, hru, hfs, hine, hlast,
              ih (i + 1) slot i hbound' hrest]
            ring
        | none =>
            simp [hregf, hru, hfs, hine, hlast,
              ih (i + 1) slot i hbound' hrest]
      · cases hlast : lastIdx eventReusable rest with
        | some k =>
            simp [hregf, hru, hfs, hlast,
              ih (i + 1) slot fs hbound' hrest]
            ring
        | none =>
            simp [hregf, hru, hfs, hlast,
              ih (i + 1) slot fs hbound' hrest]

/-- C3: slot allocation prefers, in order: the first registered
not-busy slot already assigned to the requested syncpoint (reused with
no state change); failing that, the lowest-index unregistered slot, on
which a new host event object is created; failing that, some registered
not-busy slot regardless of syncpoint; and when every slot is
registered and busy it returns slot 0 with no state change and no
error. -/
theorem FindFreeNvEvent_preference (s : State) (sp : Nat)
    (hlen : s.events.length = MaxNvEvents) :
    ((∃ j, j < MaxNvEvents ∧
        eventMatches sp (s.events.getD j default) = true) →
      (FindFreeNvEvent s sp).1 = s ∧
      (FindFreeNvEvent s sp).2 < MaxNvEvents ∧
      eventMatches sp
        (s.events.getD (FindFreeNvEvent s sp).2 default) = true ∧
      ∀ j < (FindFreeNvEvent s sp).2,
        eventMatches sp (s.events.getD j default) = false) ∧
    ((∀ j < MaxNvEvents,
        eventMatches sp (s.events.getD j default) = false) →
      (∃ j, j < MaxNvEvents ∧
        (s.events.getD j default).registered = false) →
      (FindFreeNvEvent s sp).2 < MaxNvEvents ∧
      (s.events.getD (FindFreeNvEvent s sp).2 default).registered =
        false ∧
      (∀ j < (FindFreeNvEvent s sp).2,
        (s.events.getD j default).registered = true) ∧
      (FindFreeNvEvent s sp).1 =
        CreateNvEvent s (FindFreeNvEvent s sp).2) ∧
    ((∀ j < MaxNvEvents,
        eventMatches sp (s.events.getD j default) = false) →
      (∀ j < MaxNvEvents,
        (s.events.getD j default).registered = true) →
      (∃ j, j < MaxNvEvents ∧
        eventReusable (s.events.getD j default) = true) →
      (FindFreeNvEvent s sp).1 = s ∧
      (FindFreeNvEvent s sp).2 < MaxNvEvents ∧
      eventReusable
        (s.events.getD (FindFreeNvEvent s sp).2 default) = true) ∧
    ((∀ j < MaxNvEvents,
        (s.events.getD j default).registered = true ∧
        (s.events.getD j default).IsBeingUsed = true) →
      (FindFreeNvEvent s sp).1 = s ∧ (FindFreeNvEvent s sp).2 = 0) := by
  refine ⟨?_, ?_, ?_, ?_⟩
  · rintro ⟨j, hj, hmatch⟩
    cases hf : firstIdx (eventMatches sp) s.events with
    | none =>
        have := (firstIdx_eq_none (eventMatches sp) default
          s.events).mp hf j (by omega)
        rw [hmatch] at this
        exact Bool.noConfusion this
    | some j0 =>
        have hloop := findLoop_inl sp s.events 0 MaxNvEvents MaxNvEvents
          j0 hf
        obtain ⟨hj0len, hp0, hmin⟩ :=
          firstIdx_eq_some (eventMatches sp) default s.events j0 hf
        have hr : FindFreeNvEvent s sp = (s, j0) := by
          unfold FindFreeNvEvent
          rw [hloop]
          simp
        rw [hr]
        exact ⟨rfl, by omega, hp0, fun j' hj' => hmin j' hj'⟩
  · intro hnomatch hexists
    have hf : firstIdx (eventMatches sp) s.events = none :=
      (firstIdx_eq_none (eventMatches sp) default s.events).mpr
        (fun j hj => hnomatch j (by omega))
    have hloop := findLoop_inr sp s.events 0 MaxNvEvents MaxNvEvents
      (by omega) hf
    cases hfr : firstIdx (fun e => ! e.registered) s.events with
    | none =>
        obtain ⟨j, hj, hunreg⟩ := hexists
        have := (firstIdx_eq_none (fun e => ! e.registered) default
          s.events).mp hfr j (by omega)
        rw [hunreg] at this
        exact Bool.noConfusion this
    | some k =>
        obtain ⟨hklen, hpk, hkmin⟩ :=
          firstIdx_eq_some (fun e => ! e.registered) default s.events k hfr
        rw [hfr] at hloop
        simp at hloop
        have hr : FindFreeNvEvent s sp = (CreateNvEvent s k, k) := by
          unfold FindFreeNvEvent
          rw [hloop]
          dsimp only
          rw [if_pos (show k < MaxNvEvents by omega)]
        rw [hr]
        refine ⟨by omega, by simpa using hpk, ?_, rfl⟩
        intro j' hj'
        have := hkmin j' hj'
        simpa using this
  · intro hnomatch hallreg hexists
    have hf : firstIdx (eventMatches sp) s.events = none :=
      (firstIdx_eq_none (eventMatches sp) default s.events).mpr
        (fun j hj => hnomatch j (by omega))
    have hloop := findLoop_inr sp s.events 0 MaxNvEvents MaxNvEvents
      (by omega) hf
    have hfr : firstIdx (fun e => ! e.registered) s.events = none :=
      (firstIdx_eq_none (fun e => ! e.registered) default s.events).mpr
        (fun j hj => by simpa using hallreg j (by omega))
    cases hlast : lastIdx eventReusable s.events with
    | none =>
        obtain ⟨j, hj, hre⟩ := hexists
        have := (lastIdx_eq_none eventReusable default s.events).mp
          hlast j (by omega)
        rw [hre] at this
        exact Bool.noConfusion this
    | some k =>
        obtain ⟨hklen, hpk⟩ :=
          lastIdx_eq_some eventReusable default s.events k hlast
        rw [hfr, hlast] at hloop
        simp at hloop
        have hr : FindFreeNvEvent s sp = (s, k) := by
          unfold FindFreeNvEvent
          rw [hloop]
          dsimp only
          rw [if_neg (show ¬ (MaxNvEvents < MaxNvEvents) by omega),
            if_pos (show k < MaxNvEvents by omega)]
        rw [hr]
        exact ⟨rfl, by omega, hpk⟩
  · intro hall
    have hf : firstIdx (eventMatches sp) s.events = none :=
      (firstIdx_eq_none (eventMatches sp) default s.events).mpr
        (fun j hj => by
          obtain ⟨hreg, hbusy⟩ := hall j (by omega)
          unfold eventMatches
          rw [hbusy]
          simp)
    have hloop := findLoop_inr sp s.events 0 MaxNvEvents MaxNvEvents
      (by omega) hf
    have hfr : firstIdx (fun e => ! e.registered) s.events = none :=
      (firstIdx_eq_none (fun e => ! e.registered) default s.events).mpr
        (fun j hj => by
          have h1 := (hall j (by omega)).1
          show (! (s.events.getD j default).registered) = false
          rw [h1]
          rfl)
    have hlast : lastIdx eventReusable s.events = none :=
      (lastIdx_eq_none eventReusable default s.events).mpr
        (fun j hj => by
          obtain ⟨hreg, hbusy⟩ := hall j (by omega)
          unfold eventReusable
          rw [hbusy]
          simp)
    rw [hfr, hlast] at hloop
    simp at hloop
    have hr : FindFreeNvEvent s sp = (s, 0) := by
      unfold FindFreeNvEvent
      rw [hloop]
      dsimp only
      rw [if_neg (show ¬ (MaxNvEvents < MaxNvEvents) by omega),
        if_neg (show ¬ (MaxNvEvents < MaxNvEvents) by omega)]
    rw [hr]
    exact ⟨rfl, rfl⟩

/-- Witness for C3 on a fresh table: allocation creates and returns the
lowest-index unregistered slot, slot 0. -/
theorem FindFreeNvEvent_preference_witness :
    (FindFreeNvEvent initState 7).2 < MaxNvEvents ∧
    (initState.events.getD (FindFreeNvEvent initState 7).2
      default).registered = false ∧
    (∀ j < (FindFreeNvEvent initState 7).2,
      (initState.events.getD j default).registered = true) ∧
    (FindFreeNvEvent initState 7).1 =
      CreateNvEvent initState (FindFreeNvEvent initState 7).2 :=
  (FindFreeNvEvent_preference initState 7 (by decide)).2.1
    (by decide) ⟨0, by decide⟩

end NvhostCtrl
